import Mathlib

/-!
Shallow embedding of the syslinux configuration parser
(pkg/boot/syslinux/syslinux.go) from the u-root repository.

Go strings are modelled as Lean `String`; Go maps `map[string]*LinuxImage`
are modelled as association lists whose in-place pointer updates become
`setEntry` (replace at the existing key position).  Go's in-place mutation
of the shared `parser` struct, together with `error` returns, is modelled by
threading a `ParserState` and pairing every result with an `Option Err`:
the state component is always the state as mutated so far, exactly as the
Go caller observes it after an error return.  Recursion through `include`
directives is bounded by an explicit fuel parameter; `Err.fuel` marks fuel
exhaustion and corresponds to no Go behaviour (Go would recurse further).

The `curl` package is not part of the sampled sources; its error
classification (`curl.IsURLError`) is modelled from the spec, see
`isURLError` below.  Everything else is translated from syslinux.go.
-/

/-! ### String utilities (models of the Go standard library functions used) -/

/-- Model of `unicode.IsSpace` restricted to the ASCII whitespace that
`strings.Fields` uses to split (space, tab, newline, vertical tab,
form feed, carriage return). -/
def isSpaceChar (c : Char) : Bool :=
  c = ' ' || c = '\t' || c = '\n' || c = '\x0b' || c = '\x0c' || c = '\r'

/-- Accumulator worker for `fields`: `cur` is the current field, reversed. -/
def fieldsAux : List Char → List Char → List String
  | cur, [] => if cur = [] then [] else [String.mk cur.reverse]
  | cur, c :: cs =>
    if isSpaceChar c then
      if cur = [] then fieldsAux [] cs
      else String.mk cur.reverse :: fieldsAux [] cs
    else fieldsAux (c :: cur) cs

/-- Model of Go `strings.Fields`: whitespace-delimited tokens, no empties. -/
def fields (s : String) : List String :=
  fieldsAux [] s.data

/-- Accumulator worker for `splitOnChar`. -/
def splitOnCharAux (sep : Char) : List Char → List Char → List String
  | cur, [] => [String.mk cur.reverse]
  | cur, c :: cs =>
    if c = sep then String.mk cur.reverse :: splitOnCharAux sep [] cs
    else splitOnCharAux sep (c :: cur) cs

/-- Model of Go `strings.Split` with a one-character separator (the parser
only splits on `"\n"` and `"="`): splits at every occurrence, keeps empty
pieces, and always returns at least one element. -/
def splitOnChar (sep : Char) (s : String) : List String :=
  splitOnCharAux sep [] s.data

/-- ASCII lower-casing of one character (the directive keywords the parser
compares against are all ASCII, so this models `strings.ToLower`'s use here). -/
def lowerChar (c : Char) : Char :=
  if 'A' ≤ c ∧ c ≤ 'Z' then Char.ofNat (c.toNat + 32) else c

/-- Model of Go `strings.ToLower` for the ASCII directive keywords. -/
def toLowerStr (s : String) : String :=
  String.mk (s.data.map lowerChar)

/-- Model of Go `strings.Join` with the pieces already in a list. -/
def joinWith (sep : String) : List String → String
  | [] => ""
  | [x] => x
  | x :: y :: xs => x ++ sep ++ joinWith sep (y :: xs)

/-! ### Paths and URLs -/

/-- Resolved URL; also serves as the identity of a lazily fetched resource
handle (`curl.Schemes.LazyFetch` hands back a reader for exactly this URL,
and two distinct URLs give distinct handles). -/
structure URL where
  scheme : String
  host : String
  path : String
deriving DecidableEq

/-- Rooted test used by `cleanPath` (Go checks `path[0] == '/'`). -/
def isRooted (p : String) : Bool :=
  match p.data with
  | '/' :: _ => true
  | _ => false

/-- Stack-based worker for `cleanPath`; `acc` holds output components in
reverse. -/
def cleanComps (rooted : Bool) : List String → List String → List String
  | acc, [] => acc.reverse
  | acc, c :: cs =>
    if c = ".." then
      match acc with
      | [] => if rooted then cleanComps rooted [] cs else cleanComps rooted [".."] cs
      | a :: rest =>
        if a = ".." then cleanComps rooted (c :: a :: rest) cs
        else cleanComps rooted rest cs
    else cleanComps rooted (c :: acc) cs

/-- Model of Go `path/filepath.Clean` on slash-separated paths: lexically
removes `.` components, empty components, and resolves `..` against
preceding components (a rooted path absorbs leading `..`). -/
def cleanPath (p : String) : String :=
  if p = "" then "."
  else
    let rooted := isRooted p
    let comps := (splitOnChar '/' p).filter (fun c => !(c = "" || c = "."))
    let joined := joinWith "/" (cleanComps rooted [] comps)
    if rooted then "/" ++ joined
    else if joined = "" then "." else joined

/-- Model of Go `path/filepath.Join` on two elements: empty elements are
dropped and the result is cleaned. -/
def fjoin (a b : String) : String :=
  if a = "" then (if b = "" then "" else cleanPath b)
  else if b = "" then cleanPath a
  else cleanPath (a ++ "/" ++ b)

/-- Model of Go `path/filepath.Split`: directory part (keeping the trailing
separator) and file part after the final `/`. -/
def filepathSplit (p : String) : String × String :=
  let parts := splitOnChar '/' p
  match parts.reverse with
  | [] => ("", p)
  | [_] => ("", p)
  | file :: restRev => (joinWith "/" restRev.reverse ++ "/", file)

/-- Scheme splitter for `rawParse`: recognises `scheme://rest`. -/
def splitScheme : List Char → Option (List Char × List Char)
  | [] => none
  | ':' :: '/' :: '/' :: rest => some ([], rest)
  | c :: cs =>
    match splitScheme cs with
    | some (s, r) => some (c :: s, r)
    | none => none

/-- Host splitter for `rawParse`: host runs to the first `/`, the path keeps
that `/`. -/
def splitHost : List Char → List Char × List Char
  | [] => ([], [])
  | '/' :: rest => ([], '/' :: rest)
  | c :: cs =>
    match splitHost cs with
    | (h, p) => (c :: h, p)

/-- Model of Go `net/url.Parse` restricted to the two shapes the parser
feeds it: `scheme://host/path` absolute URLs and plain (possibly relative)
paths with no scheme and no host. -/
def rawParse (s : String) : URL :=
  match splitScheme s.data with
  | none => { scheme := "", host := "", path := s }
  | some (sch, rest) =>
    match splitHost rest with
    | (h, p) => { scheme := String.mk sch, host := String.mk h, path := String.mk p }

/-! ### Errors and the fetch capability -/

/-- Error classes of the resolver.  `notFound` and `transport` are the two
fetch failure classes of the spec's Resource Fetcher interface; `malformed`
is an unparsable URL (`MalformedReference`); `fault` models a Go runtime
panic (nil-map dereference, index out of range); `fuel` marks recursion
fuel exhaustion (an artifact of the embedding, treated as fatal);
`noValidConfig` is the "no valid syslinux config found" error of
`ParseLocalConfig`. -/
inductive Err
  | notFound
  | transport
  | malformed
  | fault
  | fuel
  | noValidConfig
deriving DecidableEq

/-- Modelled from the spec: `curl.IsURLError` (the `curl` package is not
among the sampled sources).  Per the spec's error-handling design,
`NotFound` (resource missing) is exactly the error class that `include`
processing treats as non-fatal, while `TransportError` and
`MalformedReference` are always fatal; so the URL-error test holds exactly
on `Err.notFound`. -/
def isURLError : Err → Bool
  | Err.notFound => true
  | _ => false

/-- The resource-fetching capability (`curl.Schemes`): an eager `fetch`
returning full file content and a `lazyFetch` returning a random-access
handle, identified here by its URL. -/
structure Schemes where
  fetch : URL → Except Err String
  lazyFetch : URL → Except Err URL

/-- Control-character test: the one way `net/url.Parse` rejects the strings
this parser can feed it. -/
def hasCtrl (s : String) : Bool :=
  s.data.any (fun c => c.toNat < 32)

/-- Model of `parseURL` from syslinux.go: parse the reference, and if it has
no scheme inherit the working directory's scheme; if it also has no host,
inherit the host and join the paths. -/
def parseURL (surl : String) (wd : Option URL) : Except Err URL :=
  if hasCtrl surl then Except.error Err.malformed
  else
    let u := rawParse surl
    match wd with
    | some w =>
      if u.scheme = "" then
        if u.host = "" then
          Except.ok { scheme := w.scheme, host := w.host, path := fjoin w.path (cleanPath u.path) }
        else Except.ok { u with scheme := w.scheme }
      else Except.ok u
    | none => Except.ok u

/-- Model of `parser.getFile`: resolve against the working directory, then
lazily fetch. -/
def getFileF (sch : Schemes) (wd : Option URL) (url : String) : Except Err URL :=
  match parseURL url wd with
  | Except.error e => Except.error e
  | Except.ok u => sch.lazyFetch u

/-! ### Data model -/

/-- Model of `boot.LinuxImage` as used by this parser: display name, command
line, and the two lazily fetched resource handles. -/
structure LinuxImage where
  Name : String
  Cmdline : String
  Kernel : Option URL
  Initrd : Option URL
deriving DecidableEq

/-- Scope of the directive parser: `global` until the first `label`
directive, `entry` forever afterwards. -/
inductive Scope
  | global
  | entry
deriving DecidableEq

/-- Model of the `parser` struct (minus the immutable `schemes` field, which
is passed separately). -/
structure ParserState where
  linuxEntries : List (String × LinuxImage)
  labelOrder : List String
  defaultEntry : String
  nerfDefaultEntry : String
  globalAppend : String
  scope : Scope
  curEntry : String
  wd : Option URL
deriving DecidableEq

/-- Result of a mutating parser operation: the state as mutated so far
(kept even on error, as the Go caller sees the shared struct) plus an
optional error. -/
abbrev PR := ParserState × Option Err

/-- Model of `newParser`. -/
def newParser (wd : Option URL) : ParserState :=
  { linuxEntries := [], labelOrder := [], defaultEntry := "", nerfDefaultEntry := "",
    globalAppend := "", scope := Scope.global, curEntry := "", wd := wd }

/-- Go map lookup `linuxEntries[k]` on the association-list model. -/
def lookupEntry : List (String × LinuxImage) → String → Option LinuxImage
  | [], _ => none
  | (k, v) :: rest, key => if k = key then some v else lookupEntry rest key

/-- Go map write `linuxEntries[k] = v`: replaces the value at an existing
key in place, otherwise appends the new binding. -/
def setEntry : List (String × LinuxImage) → String → LinuxImage → List (String × LinuxImage)
  | [], key, v => [(key, v)]
  | (k, w) :: rest, key, v =>
    if k = key then (key, v) :: rest else (k, w) :: setEntry rest key v

/-! ### Default-order resolution -/

/-- Worker for `dedupStrings` with the `seen` set as a list. -/
def dedupAux : List String → List String → List String
  | _, [] => []
  | seen, s :: rest =>
    if s ∈ seen then dedupAux seen rest else s :: dedupAux (s :: seen) rest

/-- Model of `dedupStrings`: keep the first occurrence of every string. -/
def dedupStrings (list : List String) : List String :=
  dedupAux [] list

/-- Model of the ordering block of `ParseConfigFile` (its lines between the
`appendFile` call and the return): nerf-default first, then default, then
label order, deduplicated, with unknown labels dropped. -/
def resolveOrder (p : ParserState) : List LinuxImage :=
  if p.labelOrder.length = 0 then []
  else
    let lo1 := if p.defaultEntry.length > 0 then p.defaultEntry :: p.labelOrder else p.labelOrder
    let lo2 := if p.nerfDefaultEntry.length > 0 then p.nerfDefaultEntry :: lo1 else lo1
    (dedupStrings lo2).filterMap (fun label => lookupEntry p.linuxEntries label)

/-! ### The initrd backfill loop (tail of `parser.append`) -/

/-- One command-line token of the backfill scan: `strings.Split(opt, "=")`,
then the Go code reads `optkv[0]` and — whenever `optkv[0] == "initrd"` —
`optkv[1]` without a length check, which panics (modelled `Err.fault`) when
the token has no `=`. -/
def backfillTokStep (sch : Schemes) (wd : Option URL) (e : LinuxImage) (opt : String) :
    Except Err LinuxImage :=
  match splitOnChar '=' opt with
  | [] => Except.error Err.fault
  | k :: rest =>
    if k ≠ "initrd" then Except.ok e
    else
      match rest with
      | [] => Except.error Err.fault
      | v :: _ =>
        match getFileF sch wd v with
        | Except.error er => Except.error er
        | Except.ok i => Except.ok { e with Initrd := some i }

/-- Fold of `backfillTokStep` over the command-line tokens (the inner `for`
of the backfill loop); later `initrd=` tokens overwrite earlier ones. -/
def backfillToks (sch : Schemes) (wd : Option URL) : LinuxImage → List String → LinuxImage × Option Err
  | e, [] => (e, none)
  | e, t :: ts =>
    match backfillTokStep sch wd e t with
    | Except.error er => (e, some er)
    | Except.ok e' => backfillToks sch wd e' ts

/-- Backfill of one entry: skipped entirely when the `initrd` directive
already set the handle. -/
def backfillEntry (sch : Schemes) (wd : Option URL) (e : LinuxImage) : LinuxImage × Option Err :=
  if e.Initrd.isSome then (e, none)
  else backfillToks sch wd e (fields e.Cmdline)

/-- Backfill over all entries (the outer `for` of the backfill loop); an
error stops the loop, keeping the mutations already made. -/
def backfillEntries (sch : Schemes) (wd : Option URL) :
    List (String × LinuxImage) → List (String × LinuxImage) × Option Err
  | [] => ([], none)
  | (k, e) :: rest =>
    match backfillEntry sch wd e with
    | (e', some er) => ((k, e') :: rest, some er)
    | (e', none) =>
      match backfillEntries sch wd rest with
      | (rest', r) => ((k, e') :: rest', r)

/-- The backfill pass as it appears at the end of every `parser.append`
call. -/
def backfillRun (sch : Schemes) (st : ParserState) : PR :=
  match backfillEntries sch st.wd st.linuxEntries with
  | (es, r) => ({ st with linuxEntries := es }, r)

/-! ### The directive state machine (`parser.append`) -/

/-- The `menu` directive of `parser.append`: `menu label` renames the
current entry (identifier unchanged); `menu default` promotes the current
entry to default, but only in entry scope. -/
def stepMenu (st : ParserState) (arg : String) : PR :=
  if (fields arg).length < 1 then (st, none)
  else if toLowerStr ((fields arg).headD "") = "label" then
    match lookupEntry st.linuxEntries st.curEntry with
    | some e =>
      if (fields arg).length > 1 then
        let es := setEntry st.linuxEntries st.curEntry ({ e with Name := joinWith " " (fields arg).tail })
        ({ st with linuxEntries := es }, none)
      else (st, none)
    | none => (st, none)
  else if toLowerStr ((fields arg).headD "") = "default" then
    match st.scope with
    | Scope.entry => ({ st with defaultEntry := st.curEntry }, none)
    | Scope.global => (st, none)
  else (st, none)

/-- The directive dispatch of `parser.append` (the `switch directive`),
with the already-lower-cased keyword and the joined argument.  The
`include` case delegates to `appendFileF`, the model of the recursive
`c.appendFile` call.  The unguarded `c.linuxEntries[c.curEntry].Cmdline`
writes of the entry-scope `append` case become `Err.fault` when the key is
absent (a nil-pointer dereference in Go). -/
def stepDirective (sch : Schemes) (appendFileF : ParserState → String → PR)
    (st : ParserState) (directive arg : String) : PR :=
  if directive = "default" then ({ st with defaultEntry := arg }, none)
  else if directive = "nerfdefault" then ({ st with nerfDefaultEntry := arg }, none)
  else if directive = "include" then
    match appendFileF st arg with
    | (st', some e) => if isURLError e then (st', none) else (st', some e)
    | (st', none) => (st', none)
  else if directive = "menu" then stepMenu st arg
  else if directive = "label" then
    let es := setEntry st.linuxEntries arg ({ Name := arg, Cmdline := st.globalAppend, Kernel := none, Initrd := none })
    ({ st with scope := Scope.entry, curEntry := arg, linuxEntries := es, labelOrder := st.labelOrder ++ [arg] }, none)
  else if directive = "kernel" ∨ directive = "linux" then
    match lookupEntry st.linuxEntries st.curEntry with
    | some e =>
      match getFileF sch st.wd arg with
      | Except.error er => (st, some er)
      | Except.ok k =>
        ({ st with linuxEntries := setEntry st.linuxEntries st.curEntry ({ e with Kernel := some k }) }, none)
    | none => (st, none)
  else if directive = "initrd" then
    match lookupEntry st.linuxEntries st.curEntry with
    | some e =>
      match getFileF sch st.wd arg with
      | Except.error er => (st, some er)
      | Except.ok i =>
        ({ st with linuxEntries := setEntry st.linuxEntries st.curEntry ({ e with Initrd := some i }) }, none)
    | none => (st, none)
  else if directive = "append" then
    match st.scope with
    | Scope.global => ({ st with globalAppend := arg }, none)
    | Scope.entry =>
      if arg = "-" then
        match lookupEntry st.linuxEntries st.curEntry with
        | some e =>
          ({ st with linuxEntries := setEntry st.linuxEntries st.curEntry ({ e with Cmdline := "" }) }, none)
        | none => (st, some Err.fault)
      else
        match lookupEntry st.linuxEntries st.curEntry with
        | some e =>
          ({ st with linuxEntries := setEntry st.linuxEntries st.curEntry ({ e with Cmdline := arg }) }, none)
        | none => (st, some Err.fault)
  else (st, none)

/-- One line of the `parser.append` loop: split into fields, skip lines
with fewer than two, lower-case the keyword, join the rest into the
argument, dispatch. -/
def stepLine (sch : Schemes) (appendFileF : ParserState → String → PR)
    (st : ParserState) (line : String) : PR :=
  if (fields line).length ≤ 1 then (st, none)
  else
    stepDirective sch appendFileF st (toLowerStr ((fields line).headD ""))
      (if (fields line).length = 2 then (fields line).getD 1 ""
       else joinWith " " (fields line).tail)

/-- The line loop of `parser.append`: runs `f` on every line, stopping at
the first error. -/
def appendLines (f : ParserState → String → PR) : ParserState → List String → PR
  | st, [] => (st, none)
  | st, l :: ls =>
    match f st l with
    | (st', none) => appendLines f st' ls
    | (st', some e) => (st', some e)

/-- Model of `parser.appendFile` modulo the recursive `append` call, which
is supplied as `appendF`: resolve the reference against the parser's
working directory, eagerly fetch the content, recurse.  Note that `st.wd`
is used unchanged and never rebased. -/
def appendFileAux (sch : Schemes) (appendF : ParserState → String → PR)
    (st : ParserState) (url : String) : PR :=
  match parseURL url st.wd with
  | Except.error e => (st, some e)
  | Except.ok u =>
    match sch.fetch u with
    | Except.error e => (st, some e)
    | Except.ok config => appendF st config

/-- Model of `parser.append`, with fuel bounding the `include` recursion
depth: split the config into lines, run the directive loop (whose `include`
case re-enters `appendFile` and hence `append` itself), then — still inside
this same call — run the backfill loop. -/
def appendRun (sch : Schemes) : Nat → ParserState → String → PR
  | 0, st, _ => (st, some Err.fuel)
  | fuel + 1, st, config =>
    match appendLines (stepLine sch (appendFileAux sch (appendRun sch fuel))) st
        (splitOnChar '\n' config) with
    | (st', some e) => (st', some e)
    | (st', none) => backfillRun sch st'

/-- Model of `parser.appendFile` with the recursion tied. -/
def appendFileRun (sch : Schemes) (fuel : Nat) (st : ParserState) (url : String) : PR :=
  appendFileAux sch (appendRun sch fuel) st url

/-- Model of `ParseConfigFile`: parse from the initial reference, then
resolve the final order.  On error the partially mutated state is
discarded, as in Go (`return nil, err`). -/
def ParseConfigFile (sch : Schemes) (fuel : Nat) (url : String) (wd : Option URL) :
    Except Err (List LinuxImage) :=
  match appendFileRun sch fuel (newParser wd) url with
  | (_, some e) => Except.error e
  | (p, none) => Except.ok (resolveOrder p)

/-! ### Local-disk probing (`probeIsolinuxFiles`, `ParseLocalConfig`) -/

/-- Model of `probeIsolinuxFiles`: the fixed candidate list, directories
major, config names minor. -/
def probeIsolinuxFiles : List String :=
  (["boot/isolinux", "isolinux", "boot/syslinux", "syslinux", ""]).flatMap
    (fun dir => (["isolinux.cfg", "syslinux.cfg"]).map
      (fun conf => if dir = "" then conf else fjoin dir conf))

/-- One candidate attempt of `ParseLocalConfig`: split the relative name,
build the `file` scheme working directory under `diskDir`, parse. -/
def candidateParse (sch : Schemes) (fuel : Nat) (diskDir : String) (relname : String) :
    Except Err (List LinuxImage) :=
  ParseConfigFile sch fuel (filepathSplit relname).2
    (some { scheme := "file", host := "", path := fjoin diskDir (filepathSplit relname).1 })

/-- The candidate loop of `ParseLocalConfig`: URL-class errors advance to
the next candidate, anything else (success or other failure) returns
immediately; exhaustion is the "no valid syslinux config found" error. -/
def parseLocalLoop (sch : Schemes) (fuel : Nat) (diskDir : String) :
    List String → Except Err (List LinuxImage)
  | [] => Except.error Err.noValidConfig
  | r :: rest =>
    match candidateParse sch fuel diskDir r with
    | Except.error e =>
      if isURLError e then parseLocalLoop sch fuel diskDir rest else Except.error e
    | Except.ok imgs => Except.ok imgs

/-- Model of `ParseLocalConfig`. -/
def ParseLocalConfig (sch : Schemes) (fuel : Nat) (diskDir : String) :
    Except Err (List LinuxImage) :=
  parseLocalLoop sch fuel diskDir probeIsolinuxFiles

/-! ### Spec-described variants (for comparison against the code) -/

/-- Follows the spec's words for claim C1: an `appendFile` that computes
its own working directory from the directory portion of its own resolved
URL and uses it for the nested `append` (the caller's working directory is
restored afterwards). -/
def appendFileSpecWd (sch : Schemes) (appendF : ParserState → String → PR)
    (st : ParserState) (url : String) : PR :=
  match parseURL url st.wd with
  | Except.error e => (st, some e)
  | Except.ok u =>
    match sch.fetch u with
    | Except.error e => (st, some e)
    | Except.ok config =>
      let wd' : URL := { scheme := u.scheme, host := u.host, path := (filepathSplit u.path).1 }
      match appendF ({ st with wd := some wd' }) config with
      | (st', r) => ({ st' with wd := st.wd }, r)

/-- Follows the spec's words for claim C1: `append` whose `include`
handling rebases the working directory per `appendFileSpecWd`. -/
def appendRunSpecWd (sch : Schemes) : Nat → ParserState → String → PR
  | 0, st, _ => (st, some Err.fuel)
  | fuel + 1, st, config =>
    match appendLines (stepLine sch (appendFileSpecWd sch (appendRunSpecWd sch fuel))) st
        (splitOnChar '\n' config) with
    | (st', some e) => (st', some e)
    | (st', none) => backfillRun sch st'

/-- Follows the spec's words for claim C1: `ParseConfigFile` over the
working-directory-rebasing variant. -/
def ParseConfigFileSpecWd (sch : Schemes) (fuel : Nat) (url : String) (wd : Option URL) :
    Except Err (List LinuxImage) :=
  match appendFileSpecWd sch (appendRunSpecWd sch fuel) (newParser wd) url with
  | (_, some e) => Except.error e
  | (p, none) => Except.ok (resolveOrder p)

/-- Follows the spec's words for claim C8: directive processing with no
per-`append` backfill (`appendNB` = append, no backfill). -/
def appendNB (sch : Schemes) : Nat → ParserState → String → PR
  | 0, st, _ => (st, some Err.fuel)
  | fuel + 1, st, config =>
    appendLines (stepLine sch (appendFileAux sch (appendNB sch fuel))) st (splitOnChar '\n' config)

/-- Follows the spec's words for claim C8: one full parse in which the
backfill pass runs exactly once, after all directive processing (including
all nested includes) has completed. -/
def parseOnceBackfill (sch : Schemes) (fuel : Nat) (url : String) (wd : Option URL) :
    Except Err (List LinuxImage) :=
  match appendFileAux sch (appendNB sch fuel) (newParser wd) url with
  | (_, some e) => Except.error e
  | (p, none) =>
    match backfillRun sch p with
    | (_, some e) => Except.error e
    | (p', none) => Except.ok (resolveOrder p')

/-- Follows the spec's words for claim C2: a token scan that assigns the
initrd handle from the first `initrd=<value>` token and ignores all
subsequent matches (and skips `=`-less tokens without error). -/
def backfillToksFirst (sch : Schemes) (wd : Option URL) :
    LinuxImage → List String → LinuxImage × Option Err
  | e, [] => (e, none)
  | e, t :: ts =>
    match splitOnChar '=' t with
    | [] => (e, some Err.fault)
    | k :: rest =>
      if k ≠ "initrd" then backfillToksFirst sch wd e ts
      else
        match rest with
        | [] => backfillToksFirst sch wd e ts
        | v :: _ =>
          match getFileF sch wd v with
          | Except.error er => (e, some er)
          | Except.ok i => ({ e with Initrd := some i }, none)

/-- Follows the spec's words for claim C2: per-entry backfill taking the
first `initrd=` match. -/
def backfillEntryFirst (sch : Schemes) (wd : Option URL) (e : LinuxImage) :
    LinuxImage × Option Err :=
  if e.Initrd.isSome then (e, none)
  else backfillToksFirst sch wd e (fields e.Cmdline)

/-- Follows the spec's words for claims C5 (§4.4): the candidate order
`[nerf_default if non-empty] ++ [default if non-empty] ++ emission order`. -/
def candidateOrder (p : ParserState) : List String :=
  (if p.nerfDefaultEntry.length > 0 then [p.nerfDefaultEntry] else []) ++
    (if p.defaultEntry.length > 0 then [p.defaultEntry] else []) ++ p.labelOrder

/-- Follows the spec's words for claim C5 (§4.4): deduplicate the candidate
order keeping first occurrences, then look each identifier up, dropping the
missing ones. -/
def resolveOrderSpecModel (p : ParserState) : List LinuxImage :=
  (dedupStrings (candidateOrder p)).filterMap (fun label => lookupEntry p.linuxEntries label)

/-- The value of the last `initrd=<v>` token of a token list (`optkv[1]` of
the last token whose first `=`-component is `initrd` and which has an
`=`); used to characterise the overwrite behaviour of `backfillToks`. -/
def lastInitrdVal : List String → Option String
  | [] => none
  | t :: ts =>
    match lastInitrdVal ts with
    | some v => some v
    | none =>
      match splitOnChar '=' t with
      | k :: v :: _ => if k = "initrd" then some v else none
      | _ => none

/-- A token is safe for the backfill scan: either it is not an `initrd`
token, or it is a proper `initrd=<v>` token whose value resolves and
fetches successfully. -/
def initrdTokSafe (sch : Schemes) (wd : Option URL) (t : String) : Bool :=
  match splitOnChar '=' t with
  | [] => false
  | k :: rest =>
    if k = "initrd" then
      match rest with
      | [] => false
      | v :: _ =>
        match getFileF sch wd v with
        | Except.ok _ => true
        | Except.error _ => false
    else true

/-- A candidate outcome that stops the `ParseLocalConfig` loop: success or
a non-URL-class error. -/
def notURLRes : Except Err (List LinuxImage) → Bool
  | Except.error e => !(isURLError e)
  | Except.ok _ => true

/-- The entry-scope invariant of claim C10: in entry scope the current
label is always a key of the entries map. -/
def EntryInv (st : ParserState) : Prop :=
  st.scope = Scope.entry → (lookupEntry st.linuxEntries st.curEntry).isSome = true

/-- Every key of the entries map appears in the emission order (every entry
was created by a `label` directive, which also appends to `labelOrder`). -/
def KeysInv (st : ParserState) : Prop :=
  ∀ k, (lookupEntry st.linuxEntries k).isSome = true → k ∈ st.labelOrder

/-- What every parser step preserves: the working directory verbatim, and
the `EntryInv` and `KeysInv` invariants. -/
def StepOK (s s' : ParserState) : Prop :=
  s'.wd = s.wd ∧ (EntryInv s → EntryInv s') ∧ (KeysInv s → KeysInv s')

/-! ### Concrete fixtures used by witnesses and counterexamples -/

/-- A working directory `file:///base`-style URL used by the concrete
scenarios. -/
def wdBase : URL := { scheme := "file", host := "", path := "base" }

/-- Lazy fetching that always succeeds, handing back the URL as the handle
identity (as `curl`'s deferred LazyFetch does). -/
def idLazy : URL → Except Err URL := fun u => Except.ok u

/-- An eager fetcher with no resources at all. -/
def fetchTriv : URL → Except Err String := fun _ => Except.error Err.notFound

/-- Schemes with no fetchable config files. -/
def schTriv : Schemes := { fetch := fetchTriv, lazyFetch := idLazy }

/-- Fixture for claim C1: a top-level config at `base/a/top.cfg` includes
`inc.cfg`; distinct configs sit at `base/inc.cfg` (label `X`) and at
`base/a/inc.cfg` (label `Y`). -/
def fetchC1 : URL → Except Err String := fun u =>
  if u = { scheme := "file", host := "", path := "base/a/top.cfg" } then Except.ok "include inc.cfg"
  else if u = { scheme := "file", host := "", path := "base/inc.cfg" } then Except.ok "label X"
  else if u = { scheme := "file", host := "", path := "base/a/inc.cfg" } then Except.ok "label Y"
  else Except.error Err.notFound

/-- Schemes for the C1 scenario. -/
def schC1 : Schemes := { fetch := fetchC1, lazyFetch := idLazy }

/-- Fixture for claim C7: label `B`, then `A` with kernel `K1`, then `A`
re-declared with kernel `K2`. -/
def fetchC7 : URL → Except Err String := fun u =>
  if u = { scheme := "file", host := "", path := "base/t.cfg" } then
    Except.ok "label B\nkernel KB\nlabel A\nkernel K1\nlabel A\nkernel K2"
  else Except.error Err.notFound

/-- Schemes for the C7 scenario. -/
def schC7 : Schemes := { fetch := fetchC7, lazyFetch := idLazy }

/-- Fixture for claim C8: the command line names `initrd=foo` before an
`include` whose file is empty, then is overridden to `initrd=bar`. -/
def fetchC8 : URL → Except Err String := fun u =>
  if u = { scheme := "file", host := "", path := "base/t.cfg" } then
    Except.ok "label A\nappend initrd=foo\ninclude sub.cfg\nappend initrd=bar"
  else if u = { scheme := "file", host := "", path := "base/sub.cfg" } then Except.ok ""
  else Except.error Err.notFound

/-- Schemes for the C8 scenario. -/
def schC8 : Schemes := { fetch := fetchC8, lazyFetch := idLazy }

/-- Fixture for claim C3: an entry whose command line is the bare token
`initrd`, with no `=`. -/
def fetchC3 : URL → Except Err String := fun u =>
  if u = { scheme := "file", host := "", path := "base/t.cfg" } then
    Except.ok "label A\nappend initrd"
  else Except.error Err.notFound

/-- Schemes for the C3 scenario. -/
def schC3 : Schemes := { fetch := fetchC3, lazyFetch := idLazy }

/-! ### Basic lemmas -/

theorem splitOnCharAux_ne_nil (sep : Char) : ∀ (cur cs : List Char), splitOnCharAux sep cur cs ≠ []
  | _, [] => by simp [splitOnCharAux]
  | cur, c :: cs => by
    unfold splitOnCharAux
    split
    · simp
    · exact splitOnCharAux_ne_nil sep (c :: cur) cs

theorem splitOnChar_ne_nil (sep : Char) (s : String) : splitOnChar sep s ≠ [] :=
  splitOnCharAux_ne_nil sep [] s.data

theorem dedupAux_nodup : ∀ (l seen : List String), (dedupAux seen l).Nodup ∧ ∀ x ∈ dedupAux seen l, x ∉ seen
  | [], seen => by simp [dedupAux]
  | s :: rest, seen => by
    unfold dedupAux
    by_cases hs : s ∈ seen
    · simp only [if_pos hs]
      exact dedupAux_nodup rest seen
    · simp only [if_neg hs]
      obtain ⟨hnd, hmem⟩ := dedupAux_nodup rest (s :: seen)
      refine ⟨List.nodup_cons.mpr ⟨fun hx => ?_, hnd⟩, ?_⟩
      · exact hmem s hx (List.mem_cons_self s seen)
      · intro x hx
        cases List.mem_cons.mp hx with
        | inl h => exact h ▸ hs
        | inr h => exact fun hxs => hmem x h (List.mem_cons_of_mem s hxs)

theorem dedupStrings_nodup (l : List String) : (dedupStrings l).Nodup :=
  (dedupAux_nodup l []).1

theorem lookupEntry_setEntry_self : ∀ (es : List (String × LinuxImage)) (k : String) (v : LinuxImage),
    lookupEntry (setEntry es k v) k = some v
  | [], k, v => by simp [setEntry, lookupEntry]
  | (k', w) :: rest, k, v => by
    unfold setEntry
    by_cases h : k' = k
    · rw [if_pos h]
      unfold lookupEntry
      rw [if_pos rfl]
    · rw [if_neg h]
      unfold lookupEntry
      rw [if_neg h]
      exact lookupEntry_setEntry_self rest k v

theorem lookupEntry_setEntry_ne : ∀ (es : List (String × LinuxImage)) (k key : String) (v : LinuxImage),
    key ≠ k → lookupEntry (setEntry es k v) key = lookupEntry es key
  | [], k, key, v, h => by
    show (if k = key then some v else lookupEntry [] key) = none
    rw [if_neg (fun hh : k = key => h hh.symm)]
    rfl
  | (k', w) :: rest, k, key, v, h => by
    unfold setEntry
    by_cases hk : k' = k
    · rw [if_pos hk]
      unfold lookupEntry
      rw [if_neg (fun hh : k = key => h hh.symm),
        if_neg (fun hh : k' = key => h (hh.symm.trans hk))]
    · rw [if_neg hk]
      unfold lookupEntry
      by_cases hk2 : k' = key
      · rw [if_pos hk2, if_pos hk2]
      · rw [if_neg hk2, if_neg hk2]
        exact lookupEntry_setEntry_ne rest k key v h

theorem lookupEntry_isSome_iff_mem : ∀ (es : List (String × LinuxImage)) (k : String),
    (lookupEntry es k).isSome = true ↔ k ∈ es.map Prod.fst
  | [], k => by simp [lookupEntry]
  | (k', v) :: rest, k => by
    unfold lookupEntry
    by_cases h : k' = k
    · simp [h]
    · simp only [if_neg h, List.map_cons, List.mem_cons]
      rw [lookupEntry_isSome_iff_mem rest k]
      constructor
      · exact Or.inr
      · intro hor
        cases hor with
        | inl heq => exact absurd heq.symm h
        | inr hm => exact hm

theorem backfillEntries_map_fst (sch : Schemes) (wd : Option URL) :
    ∀ es : List (String × LinuxImage),
      ((backfillEntries sch wd es).1).map Prod.fst = es.map Prod.fst
  | [] => rfl
  | (k, e) :: rest => by
    unfold backfillEntries
    cases hbe : backfillEntry sch wd e with
    | mk e' r =>
      cases r with
      | none =>
        simp only []
        cases hrest : backfillEntries sch wd rest with
        | mk rest' r2 =>
          simp only [List.map_cons, List.map]
          have ih := backfillEntries_map_fst sch wd rest
          rw [hrest] at ih
          simp [ih]
      | some er => simp

/-! ### Step-preservation machinery -/

theorem stepOK_refl (s : ParserState) : StepOK s s :=
  ⟨rfl, fun h => h, fun h => h⟩

theorem stepOK_trans {a b c : ParserState} (h1 : StepOK a b) (h2 : StepOK b c) : StepOK a c :=
  ⟨h2.1.trans h1.1, fun h => h2.2.1 (h1.2.1 h), fun h => h2.2.2 (h1.2.2 h)⟩

theorem stepOK_label (st : ParserState) (arg : String) (v : LinuxImage) :
    StepOK st { st with
      scope := Scope.entry
      curEntry := arg
      linuxEntries := setEntry st.linuxEntries arg v
      labelOrder := st.labelOrder ++ [arg] } := by
  refine ⟨rfl, ?_, ?_⟩
  · intro _ _
    show (lookupEntry (setEntry st.linuxEntries arg v) arg).isSome = true
    rw [lookupEntry_setEntry_self]
    rfl
  · intro hk k hsome
    show k ∈ st.labelOrder ++ [arg]
    have hsome' : (lookupEntry (setEntry st.linuxEntries arg v) k).isSome = true := hsome
    by_cases he : k = arg
    · subst he
      exact List.mem_append_right _ (List.mem_singleton.mpr rfl)
    · rw [lookupEntry_setEntry_ne st.linuxEntries arg k v he] at hsome'
      exact List.mem_append_left _ (hk k hsome')

theorem stepOK_setCur (st : ParserState) (v : LinuxImage)
    (hl : (lookupEntry st.linuxEntries st.curEntry).isSome = true) :
    StepOK st { st with linuxEntries := setEntry st.linuxEntries st.curEntry v } := by
  refine ⟨rfl, ?_, ?_⟩
  · intro _ _
    show (lookupEntry (setEntry st.linuxEntries st.curEntry v) st.curEntry).isSome = true
    rw [lookupEntry_setEntry_self]
    rfl
  · intro hk k hsome
    show k ∈ st.labelOrder
    have hsome' : (lookupEntry (setEntry st.linuxEntries st.curEntry v) k).isSome = true := hsome
    by_cases he : k = st.curEntry
    · exact hk k (he ▸ hl)
    · rw [lookupEntry_setEntry_ne st.linuxEntries st.curEntry k v he] at hsome'
      exact hk k hsome'

theorem stepOK_backfillRun (sch : Schemes) (st : ParserState) :
    StepOK st ((backfillRun sch st).1) := by
  cases hbe : backfillEntries sch st.wd st.linuxEntries with
  | mk es r =>
    have h1 : (backfillRun sch st).1 = { st with linuxEntries := es } := by
      unfold backfillRun
      rw [hbe]
    rw [h1]
    have hfst : es.map Prod.fst = st.linuxEntries.map Prod.fst := by
      have h2 := backfillEntries_map_fst sch st.wd st.linuxEntries
      rw [hbe] at h2
      exact h2
    refine ⟨rfl, ?_, ?_⟩
    · intro hinv hscope
      show (lookupEntry es st.curEntry).isSome = true
      rw [lookupEntry_isSome_iff_mem, hfst, ← lookupEntry_isSome_iff_mem]
      exact hinv hscope
    · intro hk k hsome
      show k ∈ st.labelOrder
      have hsome' : (lookupEntry es k).isSome = true := hsome
      rw [lookupEntry_isSome_iff_mem, hfst, ← lookupEntry_isSome_iff_mem] at hsome'
      exact hk k hsome'

theorem stepOK_stepMenu (st : ParserState) (arg : String) :
    StepOK st ((stepMenu st arg).1) := by
  unfold stepMenu
  split
  · exact stepOK_refl st
  split
  · split
    next e heq =>
      split
      · exact stepOK_setCur st ({ e with Name := joinWith " " (fields arg).tail }) (by rw [heq]; rfl)
      · exact stepOK_refl st
    next => exact stepOK_refl st
  split
  · split
    · exact ⟨rfl, fun h => h, fun h => h⟩
    · exact stepOK_refl st
  · exact stepOK_refl st

theorem stepOK_stepDirective (sch : Schemes) (f : ParserState → String → PR)
    (hf : ∀ s u, StepOK s ((f s u).1)) (st : ParserState) (directive arg : String) :
    StepOK st ((stepDirective sch f st directive arg).1) := by
  unfold stepDirective
  split
  · exact ⟨rfl, fun h => h, fun h => h⟩
  split
  · exact ⟨rfl, fun h => h, fun h => h⟩
  split
  · split
    next st' e heq =>
      have h := hf st arg
      rw [heq] at h
      split
      · exact h
      · exact h
    next st' heq =>
      have h := hf st arg
      rw [heq] at h
      exact h
  split
  · exact stepOK_stepMenu st arg
  split
  · exact stepOK_label st arg ({ Name := arg, Cmdline := st.globalAppend, Kernel := none, Initrd := none })
  split
  · split
    next e heq =>
      split
      · exact stepOK_refl st
      next k heq2 => exact stepOK_setCur st _ (by rw [heq]; rfl)
    next => exact stepOK_refl st
  split
  · split
    next e heq =>
      split
      · exact stepOK_refl st
      next i heq2 => exact stepOK_setCur st _ (by rw [heq]; rfl)
    next => exact stepOK_refl st
  split
  · split
    · exact ⟨rfl, fun h => h, fun h => h⟩
    · split
      · split
        next e heq => exact stepOK_setCur st _ (by rw [heq]; rfl)
        next => exact stepOK_refl st
      · split
        next e heq => exact stepOK_setCur st _ (by rw [heq]; rfl)
        next => exact stepOK_refl st
  · exact stepOK_refl st

theorem stepOK_stepLine (sch : Schemes) (f : ParserState → String → PR)
    (hf : ∀ s u, StepOK s ((f s u).1)) (st : ParserState) (line : String) :
    StepOK st ((stepLine sch f st line).1) := by
  unfold stepLine
  split
  · exact stepOK_refl st
  · exact stepOK_stepDirective sch f hf st _ _

theorem stepOK_appendLines (f : ParserState → String → PR)
    (hf : ∀ s l, StepOK s ((f s l).1)) :
    ∀ (st : ParserState) (ls : List String), StepOK st ((appendLines f st ls).1)
  | st, [] => stepOK_refl st
  | st, l :: ls => by
    unfold appendLines
    split
    next st' heq =>
      have h1 := hf st l
      rw [heq] at h1
      exact stepOK_trans h1 (stepOK_appendLines f hf st' ls)
    next st' e heq =>
      have h1 := hf st l
      rw [heq] at h1
      exact h1

theorem stepOK_appendFileAux (sch : Schemes) (f : ParserState → String → PR)
    (hf : ∀ s u, StepOK s ((f s u).1)) (st : ParserState) (url : String) :
    StepOK st ((appendFileAux sch f st url).1) := by
  unfold appendFileAux
  split
  · exact stepOK_refl st
  · split
    · exact stepOK_refl st
    next config heq => exact hf st config

theorem stepOK_appendRun (sch : Schemes) : ∀ (fuel : Nat) (st : ParserState) (config : String),
    StepOK st ((appendRun sch fuel st config).1)
  | 0, st, _ => stepOK_refl st
  | fuel + 1, st, config => by
    have hf : ∀ s u, StepOK s ((appendFileAux sch (appendRun sch fuel) s u).1) :=
      fun s u => stepOK_appendFileAux sch (appendRun sch fuel)
        (fun s2 c2 => stepOK_appendRun sch fuel s2 c2) s u
    have hlines := stepOK_appendLines (stepLine sch (appendFileAux sch (appendRun sch fuel)))
      (fun s l => stepOK_stepLine sch _ hf s l) st (splitOnChar '\n' config)
    unfold appendRun
    split
    next st' e heq =>
      rw [heq] at hlines
      exact hlines
    next st' heq =>
      rw [heq] at hlines
      exact stepOK_trans hlines (stepOK_backfillRun sch st')

theorem stepOK_appendFileRun (sch : Schemes) (fuel : Nat) (st : ParserState) (url : String) :
    StepOK st ((appendFileRun sch fuel st url).1) :=
  stepOK_appendFileAux sch (appendRun sch fuel)
    (fun s c => stepOK_appendRun sch fuel s c) st url

/-! ### Characterisation lemmas -/

theorem backfillToks_lastVal (sch : Schemes) (wd : Option URL) :
    ∀ (toks : List String) (e : LinuxImage),
      (∀ t ∈ toks, initrdTokSafe sch wd t = true) →
      backfillToks sch wd e toks =
        (match lastInitrdVal toks with
         | none => (e, none)
         | some v => ({ e with Initrd := (getFileF sch wd v).toOption }, none))
  | [], e, _ => rfl
  | t :: ts, e, hsafe => by
    have hts : ∀ x ∈ ts, initrdTokSafe sch wd x = true :=
      fun x hx => hsafe x (List.mem_cons_of_mem t hx)
    have ht : initrdTokSafe sch wd t = true := hsafe t (List.mem_cons_self t ts)
    cases hsp : splitOnChar '=' t with
    | nil => exact absurd hsp (splitOnChar_ne_nil '=' t)
    | cons k rest =>
      by_cases hk : k = "initrd"
      · subst hk
        cases rest with
        | nil =>
          exfalso
          simp [initrdTokSafe, hsp] at ht
        | cons v vs =>
          have hok : ∃ hh, getFileF sch wd v = Except.ok hh := by
            simp only [initrdTokSafe, hsp] at ht
            cases hg : getFileF sch wd v with
            | ok hh => exact ⟨hh, rfl⟩
            | error er => simp [hg] at ht
          obtain ⟨hh, hg⟩ := hok
          have hstep : backfillTokStep sch wd e t = Except.ok ({ e with Initrd := some hh }) := by
            simp [backfillTokStep, hsp, hg]
          have hlhs : backfillToks sch wd e (t :: ts) =
              backfillToks sch wd ({ e with Initrd := some hh }) ts := by
            show (match backfillTokStep sch wd e t with
              | Except.error er => (e, some er)
              | Except.ok e' => backfillToks sch wd e' ts) =
                backfillToks sch wd ({ e with Initrd := some hh }) ts
            rw [hstep]
          rw [hlhs, backfillToks_lastVal sch wd ts ({ e with Initrd := some hh }) hts]
          cases hlv : lastInitrdVal ts with
          | some w =>
            have hrhs : lastInitrdVal (t :: ts) = some w := by
              simp [lastInitrdVal, hlv]
            rw [hrhs]
          | none =>
            have hrhs : lastInitrdVal (t :: ts) = some v := by
              simp [lastInitrdVal, hlv, hsp]
            rw [hrhs]
            show ({ e with Initrd := some hh }, none) =
              (({ e with Initrd := (getFileF sch wd v).toOption } : LinuxImage), none)
            rw [hg]
            rfl
      · have hstep : backfillTokStep sch wd e t = Except.ok e := by
          simp only [backfillTokStep, hsp]
          rw [if_pos hk]
        have hlhs : backfillToks sch wd e (t :: ts) = backfillToks sch wd e ts := by
          show (match backfillTokStep sch wd e t with
            | Except.error er => (e, some er)
            | Except.ok e' => backfillToks sch wd e' ts) = backfillToks sch wd e ts
          rw [hstep]
        have hrhs : lastInitrdVal (t :: ts) = lastInitrdVal ts := by
          cases hlv : lastInitrdVal ts with
          | some w => simp [lastInitrdVal, hlv]
          | none =>
            cases rest with
            | nil => simp [lastInitrdVal, hlv, hsp]
            | cons v vs => simp [lastInitrdVal, hlv, hsp, hk]
        rw [hlhs, hrhs]
        exact backfillToks_lastVal sch wd ts e hts

theorem parseLocalLoop_firstNonURL (sch : Schemes) (fuel : Nat) (d : String) :
    ∀ l : List String,
      parseLocalLoop sch fuel d l =
        ((l.map (candidateParse sch fuel d)).find? notURLRes).getD (Except.error Err.noValidConfig)
  | [] => rfl
  | r :: rest => by
    have hrec := parseLocalLoop_firstNonURL sch fuel d rest
    cases hc : candidateParse sch fuel d r with
    | ok imgs =>
      have hl : parseLocalLoop sch fuel d (r :: rest) = Except.ok imgs := by
        show (match candidateParse sch fuel d r with
          | Except.error e2 => if isURLError e2 = true then parseLocalLoop sch fuel d rest else Except.error e2
          | Except.ok imgs2 => Except.ok imgs2) = Except.ok imgs
        rw [hc]
      rw [hl]
      simp [List.find?, hc, notURLRes]
    | error e =>
      have hl : parseLocalLoop sch fuel d (r :: rest) =
          (if isURLError e = true then parseLocalLoop sch fuel d rest else Except.error e) := by
        show (match candidateParse sch fuel d r with
          | Except.error e2 => if isURLError e2 = true then parseLocalLoop sch fuel d rest else Except.error e2
          | Except.ok imgs2 => Except.ok imgs2) =
            (if isURLError e = true then parseLocalLoop sch fuel d rest else Except.error e)
        rw [hc]
      rw [hl]
      by_cases he : isURLError e = true
      · rw [if_pos he]
        have hn : notURLRes (Except.error e) = false := by simp [notURLRes, he]
        simp only [List.map_cons, List.find?, hc, hn]
        exact hrec
      · rw [if_neg he]
        have hbe : isURLError e = false := by
          cases hbool : isURLError e with
          | true => exact absurd hbool he
          | false => rfl
        have hn : notURLRes (Except.error e) = true := by simp [notURLRes, hbe]
        simp only [List.map_cons, List.find?, hc, hn]
        rfl

theorem resolveOrder_spec (p : ParserState)
    (hk : ∀ k, (lookupEntry p.linuxEntries k).isSome = true → k ∈ p.labelOrder) :
    resolveOrder p = resolveOrderSpecModel p := by
  by_cases h0 : p.labelOrder.length = 0
  · have hord : p.labelOrder = [] := List.length_eq_zero.mp h0
    unfold resolveOrder resolveOrderSpecModel
    rw [if_pos h0]
    symm
    rw [List.filterMap_eq_nil_iff]
    intro a ha
    cases hla : lookupEntry p.linuxEntries a with
    | none => rfl
    | some v =>
      exfalso
      have hmem := hk a (by rw [hla]; rfl)
      rw [hord] at hmem
      exact (List.not_mem_nil a) hmem
  · by_cases hn : p.nerfDefaultEntry.length > 0 <;> by_cases hd : p.defaultEntry.length > 0 <;>
      simp [resolveOrder, resolveOrderSpecModel, candidateOrder, h0, hn, hd]

deriving instance DecidableEq for Except

theorem stepLine_reduce (sch : Schemes) (f : ParserState → String → PR)
    (st : ParserState) (line dkw arg : String)
    (hfl : fields line = [dkw, arg]) :
    stepLine sch f st line = stepDirective sch f st (toLowerStr dkw) arg := by
  unfold stepLine
  rw [hfl]
  have hc : ¬(([dkw, arg] : List String).length ≤ 1) := by simp
  rw [if_neg hc]
  have hl2 : (([dkw, arg] : List String)).length = 2 := by simp
  rw [if_pos hl2]
  rfl

theorem stepDirective_include_fetchErr (sch : Schemes) (g : ParserState → String → PR)
    (st : ParserState) (arg : String) (u : URL) (e : Err)
    (hu : parseURL arg st.wd = Except.ok u)
    (hfe : sch.fetch u = Except.error e) :
    stepDirective sch (appendFileAux sch g) st "include" arg =
      (if isURLError e = true then (st, none) else (st, some e)) := by
  have hafa : appendFileAux sch g st arg = (st, some e) := by
    simp only [appendFileAux, hu, hfe]
  unfold stepDirective
  rw [if_neg (by decide : ¬(("include" : String) = "default")),
    if_neg (by decide : ¬(("include" : String) = "nerfdefault")),
    if_pos (rfl : ("include" : String) = "include")]
  simp only [hafa]

/-! ### Additional fixtures for witnesses -/

/-- An eager fetcher that always fails with a transport error. -/
def fetchTransport : URL → Except Err String := fun _ => Except.error Err.transport

/-- Schemes whose every eager fetch is a transport failure. -/
def schTransport : Schemes := { fetch := fetchTransport, lazyFetch := idLazy }

/-- A concrete final parser state with one entry `A` and a dangling default
reference `B`. -/
def stC5 : ParserState :=
  { linuxEntries := [("A", { Name := "A", Cmdline := "", Kernel := none, Initrd := none })],
    labelOrder := ["A"], defaultEntry := "B", nerfDefaultEntry := "", globalAppend := "",
    scope := Scope.entry, curEntry := "A", wd := none }

/-! ### Claim theorems -/

/-- C1 (counterexample): with the top-level config resolved to
`base/a/top.cfg` containing `include inc.cfg`, the code resolves the nested
reference against the top-level working directory `base` (finding
`base/inc.cfg`, label `X`), whereas the spec-described behaviour — each
nested `append_file` resolving against the directory portion of its own
resolved URL — finds `base/a/inc.cfg` (label `Y`); the two disagree at this
input, refuting the claim on the code. -/
theorem c1_counterexample_nested_include_wd :
    ParseConfigFile schC1 3 "a/top.cfg" (some wdBase) =
      Except.ok [{ Name := "X", Cmdline := "", Kernel := none, Initrd := none }] ∧
    ParseConfigFileSpecWd schC1 3 "a/top.cfg" (some wdBase) =
      Except.ok [{ Name := "Y", Cmdline := "", Kernel := none, Initrd := none }] ∧
    ParseConfigFile schC1 3 "a/top.cfg" (some wdBase) ≠
      ParseConfigFileSpecWd schC1 3 "a/top.cfg" (some wdBase) :=
  ⟨by decide, by decide, by decide⟩

/-- C1 (amended): every nested `append_file` call resolves relative
references against the parser's single working directory fixed at creation:
neither `append` nor `appendFile` ever changes the `wd` field, so a
relative reference inside an included file resolves against the top-level
parse's original working directory, not the including file's own
location. -/
theorem c1_amended_wd_constant :
    (∀ (sch : Schemes) (fuel : Nat) (st : ParserState) (config : String),
      ((appendRun sch fuel st config).1).wd = st.wd) ∧
    (∀ (sch : Schemes) (fuel : Nat) (st : ParserState) (url : String),
      ((appendFileRun sch fuel st url).1).wd = st.wd) :=
  ⟨fun sch fuel st config => (stepOK_appendRun sch fuel st config).1,
   fun sch fuel st url => (stepOK_appendFileRun sch fuel st url).1⟩

/-- C2 (counterexample): on the command line `initrd=a initrd=b`, the code
assigns the handle resolved from the last `initrd=` token (`b`), while the
claimed first-match rule (refined as `backfillEntryFirst`) assigns `a`; the
two handles differ, refuting the claim on the code. -/
theorem c2_counterexample_last_initrd_wins :
    backfillEntry schTriv none
        { Name := "A", Cmdline := "initrd=a initrd=b", Kernel := none, Initrd := none } =
      ({ Name := "A", Cmdline := "initrd=a initrd=b", Kernel := none, Initrd := some { scheme := "", host := "", path := "b" } }, none) ∧
    backfillEntryFirst schTriv none
        { Name := "A", Cmdline := "initrd=a initrd=b", Kernel := none, Initrd := none } =
      ({ Name := "A", Cmdline := "initrd=a initrd=b", Kernel := none, Initrd := some { scheme := "", host := "", path := "a" } }, none) ∧
    ({ scheme := "", host := "", path := "b" } : URL) ≠ { scheme := "", host := "", path := "a" } :=
  ⟨by decide, by decide, by decide⟩

/-- C2 (amended): for every entry whose initrd handle is unset, when every
`initrd` token of its command line is a proper `initrd=<value>` token whose
value fetches successfully, the backfill scan assigns the handle resolved
from the LAST `initrd=<value>` token (each match overwrites the previous
one); with no such token the entry is unchanged. -/
theorem c2_amended_backfill_uses_last_initrd (sch : Schemes) (wd : Option URL) (e : LinuxImage)
    (h0 : e.Initrd = none)
    (hs : ∀ t ∈ fields e.Cmdline, initrdTokSafe sch wd t = true) :
    backfillEntry sch wd e =
      (match lastInitrdVal (fields e.Cmdline) with
       | none => (e, none)
       | some v => ({ e with Initrd := (getFileF sch wd v).toOption }, none)) := by
  unfold backfillEntry
  rw [h0]
  rw [if_neg (by decide : ¬((none : Option URL).isSome = true))]
  exact backfillToks_lastVal sch wd (fields e.Cmdline) e hs

/-- C2 (amended, witness): the amended rule evaluated on the two-token
command line `initrd=a initrd=b`. -/
theorem c2_amended_backfill_uses_last_initrd_witness :
    backfillEntry schTriv none
        { Name := "A", Cmdline := "initrd=a initrd=b", Kernel := none, Initrd := none } =
      (match lastInitrdVal (fields ("initrd=a initrd=b" : String)) with
       | none => (({ Name := "A", Cmdline := "initrd=a initrd=b", Kernel := none, Initrd := none } : LinuxImage), none)
       | some v => ({ Name := "A", Cmdline := "initrd=a initrd=b", Kernel := none, Initrd := (getFileF schTriv none v).toOption }, none)) :=
  c2_amended_backfill_uses_last_initrd schTriv none
    { Name := "A", Cmdline := "initrd=a initrd=b", Kernel := none, Initrd := none }
    rfl (by decide)

/-- C3: the backfill scan is NOT total — a command-line token that is
exactly `initrd` with no `=` makes the Go code read `optkv[1]` out of
range (a runtime panic, modelled `Err.fault`), both at the single-entry
level and for a whole parse whose entry has command line `initrd`. -/
theorem c3_bare_initrd_token_faults :
    backfillEntry schTriv (some wdBase)
        { Name := "A", Cmdline := "initrd", Kernel := none, Initrd := none } =
      ({ Name := "A", Cmdline := "initrd", Kernel := none, Initrd := none }, some Err.fault) ∧
    ParseConfigFile schC3 2 "t.cfg" (some wdBase) = Except.error Err.fault :=
  ⟨by decide, by decide⟩

/-- C4: when an `include` directive's file fetch fails, a `NotFound`
failure is caught and the parse continues with the state untouched (the
include contributed nothing), while every other error class — transport,
malformed, or any other — propagates as the error of the whole line
processing. -/
theorem c4_include_error_classes (sch : Schemes) (g : ParserState → String → PR)
    (st : ParserState) (line arg : String) (u : URL)
    (hfl : fields line = ["include", arg])
    (hu : parseURL arg st.wd = Except.ok u) :
    (sch.fetch u = Except.error Err.notFound →
      stepLine sch (appendFileAux sch g) st line = (st, none)) ∧
    (∀ e, sch.fetch u = Except.error e → e ≠ Err.notFound →
      stepLine sch (appendFileAux sch g) st line = (st, some e)) := by
  have hred : stepLine sch (appendFileAux sch g) st line =
      stepDirective sch (appendFileAux sch g) st (toLowerStr "include") arg :=
    stepLine_reduce sch (appendFileAux sch g) st line "include" arg hfl
  have hlow : toLowerStr "include" = "include" := by decide
  rw [hlow] at hred
  constructor
  · intro hfe
    rw [hred, stepDirective_include_fetchErr sch g st arg u Err.notFound hu hfe]
    rfl
  · intro e hfe hne
    rw [hred, stepDirective_include_fetchErr sch g st arg u e hu hfe]
    cases e <;> first | exact absurd rfl hne | rfl

/-- C4 (witness): an `include broken.cfg` line against a fetcher raising
`NotFound` continues with the state unchanged, and against a fetcher
raising `TransportError` aborts with that error. -/
theorem c4_include_error_classes_witness :
    stepLine schTriv (appendFileAux schTriv (appendRun schTriv 1))
        (newParser (some wdBase)) "include broken.cfg" = (newParser (some wdBase), none) ∧
    stepLine schTransport (appendFileAux schTransport (appendRun schTransport 1))
        (newParser (some wdBase)) "include broken.cfg" =
      (newParser (some wdBase), some Err.transport) :=
  ⟨(c4_include_error_classes schTriv (appendRun schTriv 1) (newParser (some wdBase))
      "include broken.cfg" "broken.cfg" ⟨"file", "", "base/broken.cfg"⟩
      (by decide) (by decide)).1 rfl,
   (c4_include_error_classes schTransport (appendRun schTransport 1) (newParser (some wdBase))
      "include broken.cfg" "broken.cfg" ⟨"file", "", "base/broken.cfg"⟩
      (by decide) (by decide)).2 Err.transport rfl (by decide)⟩

/-- C5: for every final parser state whose entry keys all appear in the
emission order (true of every state the parser can build, since only the
`label` directive creates entries), the output of the ordering step equals
the spec's algorithm — deduplicate `[nerf_default?] ++ [default?] ++
emission_order` keeping first occurrences, drop identifiers without
entries, emit the rest in order — and the deduplicated identifier list has
no duplicates, so every identifier appears at most once in the output. -/
theorem c5_resolve_order_spec (p : ParserState)
    (hk : ∀ k, (lookupEntry p.linuxEntries k).isSome = true → k ∈ p.labelOrder) :
    resolveOrder p = resolveOrderSpecModel p ∧ (dedupStrings (candidateOrder p)).Nodup :=
  ⟨resolveOrder_spec p hk, dedupStrings_nodup _⟩

/-- C5 (witness): the ordering equivalence evaluated on a concrete state
with one entry `A` and a dangling default reference `B`. -/
theorem c5_resolve_order_spec_witness :
    resolveOrder stC5 = resolveOrderSpecModel stC5 ∧ (dedupStrings (candidateOrder stC5)).Nodup :=
  c5_resolve_order_spec stC5 (by
    intro k h
    by_cases hbk : ("A" : String) = k
    · subst hbk
      exact List.mem_cons_self _ _
    · simp [stC5, lookupEntry, hbk] at h)

/-- C6: an entry-scope `append` REPLACES the command line — running
`append X` / `label A` / `append Y` leaves `A` with command line exactly
`Y` (and the global append snapshot `X` in `globalAppend`) — and a
global-scope `append` line only writes `globalAppend`, leaving every
already-declared entry untouched (the snapshot taken at declaration time is
never retroactively changed). -/
theorem c6_entry_append_overrides :
    (appendRun schTriv 1 (newParser (some wdBase)) "append X\nlabel A\nappend Y" =
      ({ linuxEntries := [("A", { Name := "A", Cmdline := "Y", Kernel := none, Initrd := none })]
         labelOrder := ["A"]
         defaultEntry := ""
         nerfDefaultEntry := ""
         globalAppend := "X"
         scope := Scope.entry
         curEntry := "A"
         wd := some wdBase }, none)) ∧
    (∀ (sch : Schemes) (f : ParserState → String → PR) (st : ParserState) (line arg : String),
      fields line = ["append", arg] → st.scope = Scope.global →
      stepLine sch f st line = ({ st with globalAppend := arg }, none)) := by
  constructor
  · decide
  · intro sch f st line arg hfl hsc
    rw [stepLine_reduce sch f st line "append" arg hfl]
    have hlow : toLowerStr "append" = "append" := by decide
    rw [hlow]
    unfold stepDirective
    rw [if_neg (by decide : ¬(("append" : String) = "default")),
      if_neg (by decide : ¬(("append" : String) = "nerfdefault")),
      if_neg (by decide : ¬(("append" : String) = "include")),
      if_neg (by decide : ¬(("append" : String) = "menu")),
      if_neg (by decide : ¬(("append" : String) = "label")),
      if_neg (by decide : ¬(("append" : String) = "kernel" ∨ ("append" : String) = "linux")),
      if_neg (by decide : ¬(("append" : String) = "initrd")),
      if_pos (rfl : ("append" : String) = "append"), hsc]

/-- C6 (witness): a global `append Z` on a concrete global-scope state only
sets `globalAppend`. -/
theorem c6_entry_append_overrides_witness :
    stepLine schTriv (appendFileAux schTriv (appendRun schTriv 1)) (newParser (some wdBase))
        "append Z" = ({ newParser (some wdBase) with globalAppend := "Z" }, none) :=
  c6_entry_append_overrides.2 schTriv (appendFileAux schTriv (appendRun schTriv 1))
    (newParser (some wdBase)) "append Z" "Z" (by decide) rfl

/-- C7: re-declaring `label A` overwrites its entry with a fresh record
(kernel `K2` replacing `K1`), while the output position of `A` stays at the
index of its first declaration (index 1, after `B`), and `A` appears
exactly once. -/
theorem c7_relabel_overwrites_keeps_position :
    ParseConfigFile schC7 2 "t.cfg" (some wdBase) =
      Except.ok
        [{ Name := "B", Cmdline := "", Kernel := some { scheme := "file", host := "", path := "base/KB" }, Initrd := none },
         { Name := "A", Cmdline := "", Kernel := some { scheme := "file", host := "", path := "base/K2" }, Initrd := none }] := by
  decide

/-- C8 (counterexample): on a config whose `include` line sits between two
entry-scope `append initrd=...` lines, the code's per-`append` backfill
assigns the handle for `foo` during the include (before the last directive
is processed), while a once-after-everything backfill (the claimed
behaviour, refined as `parseOnceBackfill`) would assign `bar`; the results
differ at this input, refuting the claim on the code. -/
theorem c8_counterexample_backfill_per_append :
    ParseConfigFile schC8 3 "t.cfg" (some wdBase) =
      Except.ok [{ Name := "A", Cmdline := "initrd=bar", Kernel := none, Initrd := some { scheme := "file", host := "", path := "base/foo" } }] ∧
    parseOnceBackfill schC8 3 "t.cfg" (some wdBase) =
      Except.ok [{ Name := "A", Cmdline := "initrd=bar", Kernel := none, Initrd := some { scheme := "file", host := "", path := "base/bar" } }] ∧
    ({ scheme := "file", host := "", path := "base/foo" } : URL) ≠
      { scheme := "file", host := "", path := "base/bar" } :=
  ⟨by decide, by decide, by decide⟩

/-- C8 (amended): the initrd backfill pass runs at the end of EVERY
`append` invocation — the top-level call and each nested `include` — not
once per top-level parse; consequently, after processing only the first
three lines of the C8 config (whose third line is the include), entry `A`
already holds the initrd handle scanned from its command line, before the
top-level parse's last directive. -/
theorem c8_amended_backfill_every_append :
    (∀ (sch : Schemes) (fuel : Nat) (st : ParserState) (config : String),
      appendRun sch (fuel + 1) st config =
        (match appendLines (stepLine sch (appendFileAux sch (appendRun sch fuel))) st
            (splitOnChar '\n' config) with
         | (st', some e) => (st', some e)
         | (st', none) => backfillRun sch st')) ∧
    ((lookupEntry ((appendLines (stepLine schC8 (appendFileAux schC8 (appendRun schC8 1)))
        (newParser (some wdBase)) ["label A", "append initrd=foo", "include sub.cfg"]).1).linuxEntries
        "A").map LinuxImage.Initrd =
      some (some { scheme := "file", host := "", path := "base/foo" })) :=
  ⟨fun sch fuel st config => rfl, by decide⟩

/-- C9: probing a local directory tries the fixed candidate list in order
and returns the first candidate outcome that is not a URL-class
(not-found) error — a success returns immediately, any non-URL-class
failure propagates immediately — and exhausting all candidates yields the
"no valid syslinux config found" error. -/
theorem c9_local_probe_first_non_urlerror (sch : Schemes) (fuel : Nat) (diskDir : String) :
    ParseLocalConfig sch fuel diskDir =
      ((probeIsolinuxFiles.map (candidateParse sch fuel diskDir)).find? notURLRes).getD
        (Except.error Err.noValidConfig) :=
  parseLocalLoop_firstNonURL sch fuel diskDir probeIsolinuxFiles

/-- C10: in every reachable parser state, entry scope implies the current
label is a key of the entries map — the invariant holds of the fresh
parser, is preserved by `append` (at any fuel, hence through all nested
includes) and by `appendFile`, and consequently the entry-scope `append`
branch's unguarded lookup always finds an entry (it never produces the
nil-dereference fault). -/
theorem c10_entry_scope_invariant :
    (∀ wd : Option URL, EntryInv (newParser wd)) ∧
    (∀ (sch : Schemes) (fuel : Nat) (st : ParserState) (config : String),
      EntryInv st → EntryInv ((appendRun sch fuel st config).1)) ∧
    (∀ (sch : Schemes) (fuel : Nat) (st : ParserState) (url : String),
      EntryInv st → EntryInv ((appendFileRun sch fuel st url).1)) ∧
    (∀ (sch : Schemes) (f : ParserState → String → PR) (st : ParserState) (arg : String),
      EntryInv st → st.scope = Scope.entry →
      (stepDirective sch f st "append" arg).2 = none) := by
  refine ⟨fun wd h => Scope.noConfusion h, ?_, ?_, ?_⟩
  · exact fun sch fuel st config h => (stepOK_appendRun sch fuel st config).2.1 h
  · exact fun sch fuel st url h => (stepOK_appendFileRun sch fuel st url).2.1 h
  · intro sch f st arg hinv hsc
    obtain ⟨e, he⟩ := Option.isSome_iff_exists.mp (hinv hsc)
    unfold stepDirective
    rw [if_neg (by decide : ¬(("append" : String) = "default")),
      if_neg (by decide : ¬(("append" : String) = "nerfdefault")),
      if_neg (by decide : ¬(("append" : String) = "include")),
      if_neg (by decide : ¬(("append" : String) = "menu")),
      if_neg (by decide : ¬(("append" : String) = "label")),
      if_neg (by decide : ¬(("append" : String) = "kernel" ∨ ("append" : String) = "linux")),
      if_neg (by decide : ¬(("append" : String) = "initrd")),
      if_pos (rfl : ("append" : String) = "append")]
    split
    · rfl
    · split
      · split
        · rfl
        next heq2 =>
          rw [he] at heq2
          exact Option.noConfusion heq2
      · split
        · rfl
        next heq2 =>
          rw [he] at heq2
          exact Option.noConfusion heq2

/-- C10 (witness): the invariant evaluated through a concrete `append` run
that declares a label and appends to it. -/
theorem c10_entry_scope_invariant_witness :
    EntryInv ((appendRun schTriv 1 (newParser (some wdBase)) "label A\nappend foo").1) :=
  c10_entry_scope_invariant.2.1 schTriv 1 (newParser (some wdBase)) "label A\nappend foo"
    (fun h => Scope.noConfusion h)
